import Mathlib

/-!
Shallow embedding of `src/scripts/manage_secrets.py` and
`src/scripts/update_config.py`.

The two scripts manipulate YAML documents of the shape
`{secrets: [{key: ..., data: ...}, ...], ...other top-level fields}`.
We model YAML values, secret records, and documents; the process
environment is a function `String → Option String` (`os.environ.get`);
file loading outcomes are modelled explicitly so that parse errors and
missing files can be reasoned about.
-/

/-- A YAML value: null, a scalar string, a sequence, or a mapping
(an ordered association list, as PyYAML preserves mapping entries). -/
inductive YVal where
  | nul
  | str (s : String)
  | seq (l : List YVal)
  | map (l : List (String × YVal))

/-- A secret record `{key: ..., data: ...}` as produced and consumed by both
scripts: a string `key` and an arbitrary YAML `data` value. -/
structure Secret where
  key : String
  data : YVal

/-- A secrets document: an optional `secrets` entry (`none` when the top-level
mapping has no `secrets` key) together with the remaining top-level fields,
which the scripts never inspect. -/
structure Doc where
  secrets : Option (List Secret)
  other : List (String × YVal)

/-- The empty document `{}` (as synthesized by `merge_main` when the main file
does not exist). -/
def emptyDoc : Doc := ⟨none, []⟩

/-- `doc.get('secrets', [])` / the sequence iterated by the merge loop after
`doc['secrets'] = []` was inserted for a missing key. -/
def getSecrets (d : Doc) : List Secret := d.secrets.getD []

/-- The keys of a list of secret records, in order. -/
def keysOf (l : List Secret) : List String := l.map Secret.key

/-- The process environment: `os.environ.get` behaviour. -/
abbrev EnvT := String → Option String

/-- `os.environ.get(k)`: the YAML value stored for an environment lookup with
no default — `null` when the variable is absent. -/
def envGet (env : EnvT) (k : String) : YVal :=
  match env k with
  | some s => .str s
  | none => .nul

/-- `os.environ.get(k, d)`: environment lookup with a string default. -/
def envGetD (env : EnvT) (k d : String) : YVal :=
  match env k with
  | some s => .str s
  | none => .str d

/-- `get_env_secrets` from `manage_secrets.py`: the fixed, ordered list of six
secret records built from the environment. -/
def get_env_secrets (env : EnvT) : List Secret :=
  [ ⟨"db", .map [("database_schema", envGetD env "DATABASE_SCHEMA" "public"),
                 ("database_url", envGet env "DATABASE_URL")]⟩,
    ⟨"audit.db", .map [("database_schema", envGetD env "AUDIT_DATABASE_SCHEMA" "public"),
                       ("database_url", envGet env "AUDIT_DATABASE_URL")]⟩,
    ⟨"images.db", .map [("database_schema", envGetD env "DATABASE_SCHEMA" "public"),
                        ("database_url", envGet env "DATABASE_URL")]⟩,
    ⟨"search.db", .map [("database_schema", envGetD env "SEARCH_DATABASE_SCHEMA" "public"),
                        ("database_url", envGet env "SEARCH_DATABASE_URL")]⟩,
    ⟨"redis", .map [("redis_url", envGet env "REDIS_URL")]⟩,
    ⟨"analytic.redis", .map [("redis_url", envGet env "ANALYTIC_REDIS_URL")]⟩ ]

/-- The keys of `get_env_secrets`, a constant of the program. -/
def builderKeys : List String :=
  ["db", "audit.db", "images.db", "search.db", "redis", "analytic.redis"]

/-- The "update or append" loop body of `merge_main`: scan `doc['secrets']`
for the first record whose `key` equals `ns['key']`; replace that record
(`doc['secrets'][i] = ns`) and stop, or append `ns` when no record matches. -/
def mergeUpsert (l : List Secret) (ns : Secret) : List Secret :=
  match l with
  | [] => [ns]
  | s :: rest => if s.key = ns.key then ns :: rest else s :: mergeUpsert rest ns

/-- `update_or_append` from `update_config.py`: scan for the first record with
the given key and overwrite its `data` field (`s['data'] = data`), or append
`{'key': key, 'data': data}` when no record matches. -/
def update_or_append (l : List Secret) (key : String) (data : YVal) : List Secret :=
  match l with
  | [] => [⟨key, data⟩]
  | s :: rest =>
      if s.key = key then ⟨s.key, data⟩ :: rest else s :: update_or_append rest key data

/-- The in-memory part of `merge_main`: ensure a `secrets` sequence exists,
then upsert each builder record in order. The other top-level fields are
not touched. -/
def merge_doc (env : EnvT) (d : Doc) : Doc :=
  { secrets := some ((get_env_secrets env).foldl mergeUpsert (getSecrets d)),
    other := d.other }

/-- The possible states of the file passed to the scripts: absent, present but
not parseable as YAML, or parseable — to `null` (`none`, e.g. an empty file)
or to a document mapping. -/
inductive MainFile where
  | absent
  | malformed
  | wellFormed (v : Option Doc)

/-- The load phase of `merge_main`: a missing file gives the empty document, a
parse failure raises (`Except.error`), and `yaml.safe_load(f) or {}` turns a
`null` parse into the empty document. -/
def loadMain : MainFile → Except Unit Doc
  | .absent => .ok emptyDoc
  | .malformed => .error ()
  | .wellFormed v => .ok (v.getD emptyDoc)

/-- `merge_main`, load phase included: a load error propagates; otherwise the
fully merged document is produced (and then written). -/
def merge_main_except (env : EnvT) (file : MainFile) : Except Unit Doc :=
  match loadMain file with
  | .error e => .error e
  | .ok d => .ok (merge_doc env d)

/-- What `merge_main` writes to the main file: nothing when an exception
propagates (the write statement is only reached after the whole in-memory
merge succeeded), else the merged document. -/
def merge_main_written (env : EnvT) (file : MainFile) : Option Doc :=
  match merge_main_except env file with
  | .error _ => none
  | .ok d => some d

/-- `REQUIRED_FROM_MAIN` in `create_images_config`. -/
def REQUIRED_FROM_MAIN : List String := ["admin-api.auth", "oauth", "csrf"]

/-- `REQUIRED_FROM_ENV` in `create_images_config`. -/
def REQUIRED_FROM_ENV : List String := ["db", "redis", "images.db"]

/-- The in-memory part of `create_images_config` on a loaded main document:
keep the main records whose key is in `REQUIRED_FROM_MAIN` (in document
order), then the builder records whose key is in `REQUIRED_FROM_ENV` (in
builder order); the output document has only the `secrets` key. -/
def create_images_doc (env : EnvT) (d : Doc) : Doc :=
  ⟨some ((getSecrets d).filter (fun s => REQUIRED_FROM_MAIN.contains s.key) ++
         (get_env_secrets env).filter (fun s => REQUIRED_FROM_ENV.contains s.key)),
   []⟩

/-- The six `update_or_append` calls of `update_secrets`, before the optional
filter: the `db` URL is reused for `images.db`, and the schemas are the
hardcoded literals `public`, `audit`, `public`, `search`. -/
def upserted_secrets (d : Doc) (db_url audit_db_url search_db_url redis_url
    analytic_redis_url : String) : List Secret :=
  let s1 := update_or_append (getSecrets d) "db"
    (.map [("database_url", .str db_url), ("database_schema", .str "public")])
  let s2 := update_or_append s1 "audit.db"
    (.map [("database_url", .str audit_db_url), ("database_schema", .str "audit")])
  let s3 := update_or_append s2 "images.db"
    (.map [("database_url", .str db_url), ("database_schema", .str "public")])
  let s4 := update_or_append s3 "search.db"
    (.map [("database_url", .str search_db_url), ("database_schema", .str "search")])
  let s5 := update_or_append s4 "redis" (.map [("redis_url", .str redis_url)])
  update_or_append s5 "analytic.redis" (.map [("redis_url", .str analytic_redis_url)])

/-- The in-memory part of `update_secrets`: upsert the six records, then, when
`filter_keys` is truthy (`if filter_keys:` — a `None` or empty list skips the
filter), keep only records whose key is in the allow-list; finally store the
result under `secrets`, other top-level fields untouched. -/
def update_secrets_doc (d : Doc) (db_url audit_db_url search_db_url redis_url
    analytic_redis_url : String) (filter_keys : Option (List String)) : Doc :=
  let s6 := upserted_secrets d db_url audit_db_url search_db_url redis_url analytic_redis_url
  let final := match filter_keys with
    | none => s6
    | some fk => if fk.isEmpty then s6 else s6.filter (fun s => fk.contains s.key)
  { d with secrets := some final }

/-- `update_secrets`, file phase included: `open` raises on a missing file,
`yaml.safe_load` raises on malformed YAML, and `doc.get` raises an
`AttributeError` when the file parsed to `null`; in each of those cases the
output file is never written. Otherwise the transformed document is written
to the output path. -/
def update_secrets_run (file : MainFile) (db_url audit_db_url search_db_url redis_url
    analytic_redis_url : String) (filter_keys : Option (List String)) : Option Doc :=
  match file with
  | .absent => none
  | .malformed => none
  | .wellFormed none => none
  | .wellFormed (some d) =>
      some (update_secrets_doc d db_url audit_db_url search_db_url redis_url
        analytic_redis_url filter_keys)

/-- Outcome of the `manage_secrets.py` command-line dispatch. -/
inductive MSOutcome where
  | invokeMerge (path : String)
  | invokeCreate (mainPath outPath : String)
  | unknownMode (mode : String)
  | indexError

/-- The `__main__` block of `manage_secrets.py`, on `sys.argv[1:]`:
`sys.argv[1]` selects the mode (an out-of-range access raises an
`IndexError`); an unrecognized mode prints `Unknown mode: ...` and calls
`sys.exit(1)` without touching any file. -/
def manage_secrets_cli : List String → MSOutcome
  | [] => .indexError
  | mode :: rest =>
      if mode = "merge_main" then
        match rest with
        | p :: _ => .invokeMerge p
        | [] => .indexError
      else if mode = "create_images" then
        match rest with
        | a :: b :: _ => .invokeCreate a b
        | _ => .indexError
      else .unknownMode mode

/-- The exit status set by the dispatcher itself (`sys.exit(1)` on an unknown
mode); `none` when control passes to an operation or an exception propagates. -/
def msExitCode : MSOutcome → Option Nat
  | .unknownMode _ => some 1
  | _ => none

/-- Whether the dispatcher prints a diagnostic message before exiting. -/
def msPrintsMessage : MSOutcome → Bool
  | .unknownMode _ => true
  | _ => false

/-- The files the selected operation would read or write; empty when the
dispatcher stops before any file operation. -/
def msFilesTouched : MSOutcome → List String
  | .invokeMerge p => [p]
  | .invokeCreate a b => [a, b]
  | .unknownMode _ => []
  | .indexError => []

/-- Outcome of the `update_config.py` command-line entry point. -/
inductive UCOutcome where
  | usageError
  | invoke (input output db_url audit_db_url search_db_url redis_url
      analytic_redis_url : String) (filterKeys : Option (List String))

/-- The `__main__` block of `update_config.py`, on the full `sys.argv`
(program name included): with `len(sys.argv) < 8` it prints the usage line
and calls `sys.exit(1)` before any file is opened; otherwise it parses the
seven positional arguments and the optional comma-separated allow-list. -/
def update_config_cli : List String → UCOutcome
  | _ :: i :: o :: d :: a :: s :: r :: an :: rest =>
      .invoke i o d a s r an
        (match rest with
         | [] => none
         | fk :: _ => some (fk.splitOn ","))
  | _ => .usageError

/-- The exit status set by the usage check (`sys.exit(1)`). -/
def ucExitCode : UCOutcome → Option Nat
  | .usageError => some 1
  | _ => none

/-- Whether the usage message is printed. -/
def ucPrintsMessage : UCOutcome → Bool
  | .usageError => true
  | _ => false

/-- The files `update_secrets` would read or write; empty on a usage error. -/
def ucFilesTouched : UCOutcome → List String
  | .usageError => []
  | .invoke i o _ _ _ _ _ _ => [i, o]

/-- Look a field up in a mapping-valued piece of `data`. -/
def dataLookup : YVal → String → Option YVal
  | .map l, k => l.lookup k
  | _, _ => none

/-- The `data` field named `field` of the record with key `key`, when both
exist. -/
def secretDataField (l : List Secret) (key field : String) : Option YVal :=
  match l.find? (fun s => s.key == key) with
  | some s => dataLookup s.data field
  | none => none

/-! ### Lemmas about the upsert loops -/

/-- `update_or_append` and the inline loop of `merge_main` compute the same
list: when the matched record is exactly a `{key, data}` pair, overwriting its
`data` equals replacing the whole record. -/
theorem update_or_append_eq_mergeUpsert (l : List Secret) (k : String) (d : YVal) :
    update_or_append l k d = mergeUpsert l ⟨k, d⟩ := by
  induction l with
  | nil => rfl
  | cons s rest ih =>
      simp only [update_or_append, mergeUpsert]
      by_cases h : s.key = k
      · simp [h]
      · simp [h, ih]

/-- Members of an upserted list come from the original list or are the new
record. -/
theorem mem_mergeUpsert {t : Secret} : ∀ {l : List Secret} {ns : Secret},
    t ∈ mergeUpsert l ns → t ∈ l ∨ t = ns := by
  intro l
  induction l with
  | nil =>
      intro ns h
      simp only [mergeUpsert, List.mem_singleton] at h
      exact Or.inr h
  | cons s rest ih =>
      intro ns h
      simp only [mergeUpsert] at h
      by_cases hk : s.key = ns.key
      · rw [if_pos hk] at h
        rcases List.mem_cons.mp h with h | h
        · exact Or.inr h
        · exact Or.inl (List.mem_cons_of_mem _ h)
      · rw [if_neg hk] at h
        rcases List.mem_cons.mp h with h | h
        · exact Or.inl (h ▸ List.mem_cons_self s rest)
        · rcases ih h with h2 | h2
          · exact Or.inl (List.mem_cons_of_mem _ h2)
          · exact Or.inr h2

/-- A record whose key differs from the upserted key keeps its position. -/
theorem mergeUpsert_getElem (ns : Secret) : ∀ (l : List Secret) (i : Nat) (s : Secret),
    l[i]? = some s → s.key ≠ ns.key → (mergeUpsert l ns)[i]? = some s := by
  intro l
  induction l with
  | nil => intro i s h _; simp at h
  | cons a rest ih =>
      intro i s h hne
      cases i with
      | zero =>
          simp only [List.getElem?_cons_zero, Option.some.injEq] at h
          subst h
          simp only [mergeUpsert, if_neg hne, List.getElem?_cons_zero]
      | succ j =>
          simp only [List.getElem?_cons_succ] at h
          simp only [mergeUpsert]
          by_cases hk : a.key = ns.key
          · rw [if_pos hk]
            simpa using h
          · rw [if_neg hk]
            simpa using ih j s h hne

/-- A record whose key is hit by none of the upserted records keeps its
position through the whole merge loop. -/
theorem foldl_mergeUpsert_getElem : ∀ (nss l : List Secret) (i : Nat) (s : Secret),
    l[i]? = some s → (∀ ns ∈ nss, s.key ≠ ns.key) →
    (nss.foldl mergeUpsert l)[i]? = some s := by
  intro nss
  induction nss with
  | nil => intro l i s h _; simpa using h
  | cons ns rest ih =>
      intro l i s h hall
      simp only [List.foldl_cons]
      exact ih (mergeUpsert l ns) i s
        (mergeUpsert_getElem ns l i s h (hall ns (List.mem_cons_self ns rest)))
        (fun n hn => hall n (List.mem_cons_of_mem _ hn))

/-- When no record of `l` carries the new key, the upsert appends. -/
theorem mergeUpsert_append_of_not_mem (ns : Secret) : ∀ (l : List Secret),
    (∀ s ∈ l, s.key ≠ ns.key) → mergeUpsert l ns = l ++ [ns] := by
  intro l
  induction l with
  | nil => intro _; rfl
  | cons s rest ih =>
      intro h
      have hs : s.key ≠ ns.key := h s (List.mem_cons_self s rest)
      simp only [mergeUpsert, if_neg hs, List.cons_append, List.cons.injEq, true_and]
      exact ih (fun t ht => h t (List.mem_cons_of_mem _ ht))

/-- When the first record carrying the new key sits at index `i`, the upsert
is exactly `List.set` at `i`. -/
theorem mergeUpsert_set_of_firstIdx (ns : Secret) : ∀ (l : List Secret) (i : Nat) (s : Secret),
    l[i]? = some s → s.key = ns.key →
    (∀ j t, j < i → l[j]? = some t → t.key ≠ ns.key) →
    mergeUpsert l ns = l.set i ns := by
  intro l
  induction l with
  | nil => intro i s h _ _; simp at h
  | cons a rest ih =>
      intro i s h hk hprev
      cases i with
      | zero =>
          simp only [List.getElem?_cons_zero, Option.some.injEq] at h
          subst h
          simp [mergeUpsert, hk]
      | succ j =>
          have ha : a.key ≠ ns.key :=
            hprev 0 a (Nat.succ_pos j) (by simp)
          simp only [List.getElem?_cons_succ] at h
          simp only [mergeUpsert, if_neg ha, List.set_cons_succ, List.cons.injEq, true_and]
          exact ih j s h hk
            (fun j' t hj' ht => hprev (j' + 1) t (Nat.succ_lt_succ hj') (by simpa using ht))

/-! ### Claim theorems: C1 and C2 -/

/-- A fully empty environment, used to instantiate universally quantified
claim theorems at a concrete input. -/
def env0 : EnvT := fun _ => none

/-- Claim C1: for every assignment of the process environment variables,
`get_env_secrets` returns exactly six records whose keys are, in order,
`db`, `audit.db`, `images.db`, `search.db`, `redis`, `analytic.redis`; every
data value whose environment variable is absent is `null`, with
`database_schema` defaulting to `"public"` when its variable is absent.
(The builder is a total function of the environment in this embedding, which
is how "never raises an exception" is rendered.) -/
theorem c1_builder_shape (env : EnvT) :
    keysOf (get_env_secrets env) = builderKeys ∧
    (get_env_secrets env).length = 6 ∧
    (env "DATABASE_URL" = none →
      secretDataField (get_env_secrets env) "db" "database_url" = some .nul ∧
      secretDataField (get_env_secrets env) "images.db" "database_url" = some .nul) ∧
    (env "AUDIT_DATABASE_URL" = none →
      secretDataField (get_env_secrets env) "audit.db" "database_url" = some .nul) ∧
    (env "SEARCH_DATABASE_URL" = none →
      secretDataField (get_env_secrets env) "search.db" "database_url" = some .nul) ∧
    (env "REDIS_URL" = none →
      secretDataField (get_env_secrets env) "redis" "redis_url" = some .nul) ∧
    (env "ANALYTIC_REDIS_URL" = none →
      secretDataField (get_env_secrets env) "analytic.redis" "redis_url" = some .nul) ∧
    (env "DATABASE_SCHEMA" = none →
      secretDataField (get_env_secrets env) "db" "database_schema" = some (.str "public") ∧
      secretDataField (get_env_secrets env) "images.db" "database_schema"
        = some (.str "public")) ∧
    (env "AUDIT_DATABASE_SCHEMA" = none →
      secretDataField (get_env_secrets env) "audit.db" "database_schema"
        = some (.str "public")) ∧
    (env "SEARCH_DATABASE_SCHEMA" = none →
      secretDataField (get_env_secrets env) "search.db" "database_schema"
        = some (.str "public")) := by
  refine ⟨rfl, rfl, ?_, ?_, ?_, ?_, ?_, ?_, ?_, ?_⟩ <;>
    intro h <;>
    simp [secretDataField, get_env_secrets, dataLookup, envGet, envGetD, h, List.find?,
      List.lookup]

/-- Witness for C1 at the empty environment. -/
theorem c1_builder_shape_witness :
    env0 "DATABASE_URL" = none ∧
    keysOf (get_env_secrets env0) = builderKeys ∧
    secretDataField (get_env_secrets env0) "db" "database_url" = some .nul ∧
    secretDataField (get_env_secrets env0) "redis" "redis_url" = some .nul ∧
    secretDataField (get_env_secrets env0) "search.db" "database_schema"
      = some (.str "public") := by
  obtain ⟨h1, _, h3, _, _, h6, _, _, _, h10⟩ := c1_builder_shape env0
  exact ⟨rfl, h1, (h3 rfl).1, h6 rfl, h10 rfl⟩

/-- Claim C2: upserting a record into a `secrets` sequence replaces the first
record with the same key in place (a `List.set` at its position) or appends at
the end when no key matches; `update_or_append` of `update_config.py` computes
the same list; and a document without a `secrets` key (or a missing file) is
merged exactly like one with an empty `secrets` sequence. -/
theorem c2_upsert_semantics (secrets : List Secret) (ns : Secret) :
    ((∀ s ∈ secrets, s.key ≠ ns.key) → mergeUpsert secrets ns = secrets ++ [ns]) ∧
    (∀ i s, secrets[i]? = some s → s.key = ns.key →
      (∀ j t, j < i → secrets[j]? = some t → t.key ≠ ns.key) →
      mergeUpsert secrets ns = secrets.set i ns) ∧
    update_or_append secrets ns.key ns.data = mergeUpsert secrets ns ∧
    (∀ other env, merge_doc env ⟨none, other⟩ = merge_doc env ⟨some [], other⟩ ∧
      loadMain .absent = .ok emptyDoc ∧ getSecrets emptyDoc = []) :=
  ⟨mergeUpsert_append_of_not_mem ns secrets,
   mergeUpsert_set_of_firstIdx ns secrets,
   update_or_append_eq_mergeUpsert secrets ns.key ns.data,
   fun _ _ => ⟨rfl, rfl, rfl⟩⟩

/-- Witness for C2: an append on a fresh key and an in-place replacement at
index 0. -/
theorem c2_upsert_semantics_witness :
    mergeUpsert [⟨"a", .nul⟩] ⟨"b", .str "x"⟩ = [⟨"a", .nul⟩] ++ [⟨"b", .str "x"⟩] ∧
    mergeUpsert [⟨"b", .nul⟩, ⟨"c", .nul⟩] ⟨"b", .str "x"⟩ =
      ([⟨"b", .nul⟩, ⟨"c", .nul⟩]).set 0 ⟨"b", .str "x"⟩ := by
  constructor
  · refine (c2_upsert_semantics [⟨"a", .nul⟩] ⟨"b", .str "x"⟩).1 ?_
    intro s hs
    simp only [List.mem_singleton] at hs
    subst hs
    decide
  · refine (c2_upsert_semantics [⟨"b", .nul⟩, ⟨"c", .nul⟩] ⟨"b", .str "x"⟩).2.1 0
      ⟨"b", .nul⟩ rfl rfl ?_
    intro j t hj _
    exact absurd hj (Nat.not_lt_zero j)

/-! ### First-occurrence machinery, idempotence, and key uniqueness -/

/-- The first record of the list carrying the key of `ns` is `ns` itself. -/
def firstIs (ns : Secret) : List Secret → Prop
  | [] => False
  | s :: rest => (s.key = ns.key ∧ s = ns) ∨ (s.key ≠ ns.key ∧ firstIs ns rest)

/-- Upserting a record whose first occurrence is already in place changes
nothing. -/
theorem mergeUpsert_of_firstIs {ns : Secret} : ∀ {l : List Secret},
    firstIs ns l → mergeUpsert l ns = l := by
  intro l
  induction l with
  | nil => intro h; exact absurd h (by simp [firstIs])
  | cons s rest ih =>
      intro h
      simp only [firstIs] at h
      rcases h with ⟨hk, he⟩ | ⟨hk, hf⟩
      · subst he
        simp [mergeUpsert]
      · simp [mergeUpsert, hk, ih hf]

/-- After an upsert, the upserted record is the first occurrence of its key. -/
theorem firstIs_mergeUpsert (ns : Secret) : ∀ (l : List Secret),
    firstIs ns (mergeUpsert l ns) := by
  intro l
  induction l with
  | nil => exact Or.inl ⟨rfl, rfl⟩
  | cons s rest ih =>
      by_cases hk : s.key = ns.key
      · simp only [mergeUpsert, if_pos hk]
        exact Or.inl ⟨rfl, rfl⟩
      · simp only [mergeUpsert, if_neg hk]
        exact Or.inr ⟨hk, ih⟩

/-- Upserting a record with a different key preserves a first occurrence. -/
theorem firstIs_mergeUpsert_other {ns ns' : Secret} (hne : ns'.key ≠ ns.key) :
    ∀ {l : List Secret}, firstIs ns l → firstIs ns (mergeUpsert l ns') := by
  intro l
  induction l with
  | nil => intro h; exact absurd h (by simp [firstIs])
  | cons s rest ih =>
      intro h
      simp only [firstIs] at h
      rcases h with ⟨hk, he⟩ | ⟨hk, hf⟩
      · have hcond : ¬s.key = ns'.key := by
          rw [hk]
          exact fun hh => hne hh.symm
        simp only [mergeUpsert, if_neg hcond]
        exact Or.inl ⟨hk, he⟩
      · by_cases hc : s.key = ns'.key
        · simp only [mergeUpsert, if_pos hc]
          exact Or.inr ⟨hne, hf⟩
        · simp only [mergeUpsert, if_neg hc]
          exact Or.inr ⟨hk, ih hf⟩

/-- A first occurrence survives a whole merge loop over records with other
keys. -/
theorem firstIs_foldl_mergeUpsert {ns : Secret} : ∀ (nss : List Secret) (l : List Secret),
    firstIs ns l → (∀ n ∈ nss, n.key ≠ ns.key) →
    firstIs ns (nss.foldl mergeUpsert l) := by
  intro nss
  induction nss with
  | nil => intro l h _; simpa using h
  | cons n rest ih =>
      intro l h hall
      simp only [List.foldl_cons]
      exact ih (mergeUpsert l n)
        (firstIs_mergeUpsert_other (hall n (List.mem_cons_self n rest)) h)
        (fun m hm => hall m (List.mem_cons_of_mem _ hm))

/-- After a merge loop over records with pairwise distinct keys, each of them
is the first occurrence of its key. -/
theorem firstIs_all_foldl : ∀ (nss : List Secret),
    nss.Pairwise (fun a b => a.key ≠ b.key) →
    ∀ (l : List Secret) (ns : Secret), ns ∈ nss →
    firstIs ns (nss.foldl mergeUpsert l) := by
  intro nss
  induction nss with
  | nil => intro _ l ns h; simp at h
  | cons a rest ih =>
      intro hd l ns hmem
      simp only [List.foldl_cons]
      rcases List.mem_cons.mp hmem with h | h
      · subst h
        exact firstIs_foldl_mergeUpsert rest (mergeUpsert l ns) (firstIs_mergeUpsert ns l)
          (fun n hn => Ne.symm ((List.pairwise_cons.mp hd).1 n hn))
      · exact ih (List.pairwise_cons.mp hd).2 (mergeUpsert l a) ns h

/-- A merge loop over records that are all already first occurrences is the
identity. -/
theorem foldl_mergeUpsert_fixed : ∀ (nss : List Secret) (L : List Secret),
    (∀ ns ∈ nss, firstIs ns L) → nss.foldl mergeUpsert L = L := by
  intro nss
  induction nss with
  | nil => intro L _; rfl
  | cons a rest ih =>
      intro L h
      simp only [List.foldl_cons]
      rw [mergeUpsert_of_firstIs (h a (List.mem_cons_self a rest))]
      exact ih L (fun n hn => h n (List.mem_cons_of_mem _ hn))

/-- The merge loop is idempotent when the upserted records have pairwise
distinct keys. -/
theorem foldl_mergeUpsert_idem (nss : List Secret)
    (hd : nss.Pairwise (fun a b => a.key ≠ b.key)) (l : List Secret) :
    nss.foldl mergeUpsert (nss.foldl mergeUpsert l) = nss.foldl mergeUpsert l :=
  foldl_mergeUpsert_fixed nss _ (fun ns hns => firstIs_all_foldl nss hd l ns hns)

/-- The six builder records have pairwise distinct keys, whatever the
environment. -/
theorem get_env_secrets_pairwise (env : EnvT) :
    (get_env_secrets env).Pairwise (fun a b => a.key ≠ b.key) := by
  have h : ((get_env_secrets env).map Secret.key).Pairwise (fun a b => a ≠ b) := by
    have hk : (get_env_secrets env).map Secret.key = builderKeys := rfl
    rw [hk]
    decide
  exact List.pairwise_map.mp h

/-- Upserting preserves pairwise-distinct keys. -/
theorem mergeUpsert_pairwise {l : List Secret} {ns : Secret}
    (h : l.Pairwise (fun a b => a.key ≠ b.key)) :
    (mergeUpsert l ns).Pairwise (fun a b => a.key ≠ b.key) := by
  induction l with
  | nil => simp [mergeUpsert]
  | cons s rest ih =>
      obtain ⟨hhead, htail⟩ := List.pairwise_cons.mp h
      by_cases hk : s.key = ns.key
      · simp only [mergeUpsert, if_pos hk]
        exact List.pairwise_cons.mpr ⟨fun t ht => hk ▸ hhead t ht, htail⟩
      · simp only [mergeUpsert, if_neg hk]
        refine List.pairwise_cons.mpr ⟨?_, ih htail⟩
        intro t ht
        rcases mem_mergeUpsert ht with h2 | h2
        · exact hhead t h2
        · exact h2 ▸ hk

/-- A whole merge loop preserves pairwise-distinct keys. -/
theorem foldl_mergeUpsert_pairwise : ∀ (nss l : List Secret),
    l.Pairwise (fun a b => a.key ≠ b.key) →
    (nss.foldl mergeUpsert l).Pairwise (fun a b => a.key ≠ b.key) := by
  intro nss
  induction nss with
  | nil => intro l h; simpa using h
  | cons n rest ih =>
      intro l h
      simp only [List.foldl_cons]
      exact ih (mergeUpsert l n) (mergeUpsert_pairwise h)

/-! ### Claim theorems: C3, C4, C5 -/

/-- Claim C3: merging leaves every top-level field other than `secrets`
unchanged, and leaves every record of the `secrets` sequence whose key is not
one of the six builder keys unchanged and in its original position. -/
theorem c3_merge_frame (env : EnvT) (d : Doc) :
    (merge_doc env d).other = d.other ∧
    (∀ (i : Nat) (s : Secret), (getSecrets d)[i]? = some s → s.key ∉ builderKeys →
      (getSecrets (merge_doc env d))[i]? = some s) := by
  refine ⟨rfl, ?_⟩
  intro i s h hnb
  have hall : ∀ ns ∈ get_env_secrets env, s.key ≠ ns.key := by
    intro ns hns hkeq
    apply hnb
    rw [hkeq]
    have hmem : ns.key ∈ (get_env_secrets env).map Secret.key :=
      List.mem_map_of_mem Secret.key hns
    have hk : (get_env_secrets env).map Secret.key = builderKeys := rfl
    rwa [hk] at hmem
  exact foldl_mergeUpsert_getElem (get_env_secrets env) (getSecrets d) i s h hall

/-- Witness for C3: a record with an unrelated key and an unrelated top-level
field both survive a merge at their positions. -/
theorem c3_merge_frame_witness :
    (merge_doc env0 ⟨some [⟨"keep", .nul⟩], [("x", .nul)]⟩).other = [("x", .nul)] ∧
    (getSecrets (merge_doc env0 ⟨some [⟨"keep", .nul⟩], [("x", .nul)]⟩))[0]? =
      some ⟨"keep", .nul⟩ := by
  obtain ⟨h1, h2⟩ := c3_merge_frame env0 ⟨some [⟨"keep", .nul⟩], [("x", .nul)]⟩
  exact ⟨h1, h2 0 ⟨"keep", .nul⟩ rfl (by decide)⟩

/-- Claim C4: merging the same environment into the same document twice
yields a document structurally equal to merging once. -/
theorem c4_merge_idempotent (env : EnvT) (d : Doc) :
    merge_doc env (merge_doc env d) = merge_doc env d := by
  simp only [merge_doc, getSecrets, Option.getD_some]
  rw [foldl_mergeUpsert_idem _ (get_env_secrets_pairwise env)]

/-- Claim C5: pairwise-distinct keys in the `secrets` sequence are preserved
both by the `merge_main` loop and by `update_secrets` (upserts followed by the
optional allow-list filter). -/
theorem c5_key_uniqueness (env : EnvT) (d : Doc)
    (db_url audit_db_url search_db_url redis_url analytic_redis_url : String)
    (filter_keys : Option (List String))
    (h : (getSecrets d).Pairwise (fun a b => a.key ≠ b.key)) :
    (getSecrets (merge_doc env d)).Pairwise (fun a b => a.key ≠ b.key) ∧
    (getSecrets (update_secrets_doc d db_url audit_db_url search_db_url redis_url
      analytic_redis_url filter_keys)).Pairwise (fun a b => a.key ≠ b.key) := by
  have h6 : (upserted_secrets d db_url audit_db_url search_db_url redis_url
      analytic_redis_url).Pairwise (fun a b => a.key ≠ b.key) := by
    unfold upserted_secrets
    simp only [update_or_append_eq_mergeUpsert]
    exact mergeUpsert_pairwise (mergeUpsert_pairwise (mergeUpsert_pairwise
      (mergeUpsert_pairwise (mergeUpsert_pairwise (mergeUpsert_pairwise h)))))
  refine ⟨foldl_mergeUpsert_pairwise _ _ h, ?_⟩
  unfold update_secrets_doc
  cases filter_keys with
  | none => simpa [getSecrets] using h6
  | some fk =>
      by_cases hfk : fk.isEmpty
      · simpa [getSecrets, hfk] using h6
      · simp only [getSecrets, hfk, Bool.false_eq_true, if_false, Option.getD_some]
        exact List.Pairwise.sublist (List.filter_sublist _) h6

/-- Witness for C5 on a one-record document. -/
theorem c5_key_uniqueness_witness :
    (getSecrets (merge_doc env0 ⟨some [⟨"a", .nul⟩], []⟩)).Pairwise
      (fun a b => a.key ≠ b.key) ∧
    (getSecrets (update_secrets_doc ⟨some [⟨"a", .nul⟩], []⟩ "u1" "u2" "u3" "u4" "u5"
      (some ["db", "redis"]))).Pairwise (fun a b => a.key ≠ b.key) :=
  c5_key_uniqueness env0 ⟨some [⟨"a", .nul⟩], []⟩ "u1" "u2" "u3" "u4" "u5"
    (some ["db", "redis"]) (by simp [getSecrets])

/-! ### Claim theorems: C6 -/

/-- Filtering records by a predicate on their key commutes with taking keys. -/
theorem keysOf_filter (p : String → Bool) : ∀ (l : List Secret),
    keysOf (l.filter fun s => p s.key) = (keysOf l).filter p := by
  intro l
  induction l with
  | nil => rfl
  | cons s rest ih =>
      have ih' : List.map Secret.key (rest.filter fun s => p s.key) =
          (rest.map Secret.key).filter p := ih
      cases hp : p s.key with
      | true => simp [keysOf, List.filter_cons, hp, ih']
      | false => simp [keysOf, List.filter_cons, hp, ih']

/-- The environment-sourced part of `create_images_config` consists of the
builder records `db`, `images.db`, `redis` — in builder order, because the
loop iterates over `get_env_secrets` and tests membership in
`REQUIRED_FROM_ENV`. -/
theorem create_images_env_part (env : EnvT) :
    (get_env_secrets env).filter (fun s => REQUIRED_FROM_ENV.contains s.key) =
      [⟨"db", .map [("database_schema", envGetD env "DATABASE_SCHEMA" "public"),
                    ("database_url", envGet env "DATABASE_URL")]⟩,
       ⟨"images.db", .map [("database_schema", envGetD env "DATABASE_SCHEMA" "public"),
                           ("database_url", envGet env "DATABASE_URL")]⟩,
       ⟨"redis", .map [("redis_url", envGet env "REDIS_URL")]⟩] := rfl

/-- Counterexample to claim C6 as stated: on a main document holding
`admin-api.auth`, `oauth`, `csrf`, `other` (in that order) and the empty
environment, the environment-sourced tail of the output is `db`, `images.db`,
`redis` — builder order — not the claimed `db`, `redis`, `images.db`. -/
theorem c6_create_images_counterexample :
    keysOf (getSecrets (create_images_doc env0
      ⟨some [⟨"admin-api.auth", .nul⟩, ⟨"oauth", .nul⟩, ⟨"csrf", .nul⟩, ⟨"other", .nul⟩],
       []⟩)) ≠
      ["admin-api.auth", "oauth", "csrf", "db", "redis", "images.db"] := by
  have h : keysOf (getSecrets (create_images_doc env0
      ⟨some [⟨"admin-api.auth", .nul⟩, ⟨"oauth", .nul⟩, ⟨"csrf", .nul⟩, ⟨"other", .nul⟩],
       []⟩)) =
      ["admin-api.auth", "oauth", "csrf", "db", "images.db", "redis"] := rfl
  rw [h]
  decide

/-- Claim C6, amended: the environment-sourced records come in builder order
`db`, `images.db`, `redis` (not `db`, `redis`, `images.db`), and the
main-sourced records keep their main-document order. Everything else is as
claimed: the output document has only the `secrets` key, it holds exactly the
three main-sourced records (copied verbatim, main-sourced first) and the three
environment-built ones, `other` never appears, and no key appears twice. -/
theorem c6_create_images_amended (env : EnvT) (d : Doc)
    (hd : (getSecrets d).Pairwise (fun a b => a.key ≠ b.key))
    (h1 : "admin-api.auth" ∈ keysOf (getSecrets d))
    (h2 : "oauth" ∈ keysOf (getSecrets d))
    (h3 : "csrf" ∈ keysOf (getSecrets d))
    (_h4 : "other" ∈ keysOf (getSecrets d)) :
    (create_images_doc env d).other = [] ∧
    keysOf (getSecrets (create_images_doc env d)) =
      (keysOf (getSecrets d)).filter (fun k => REQUIRED_FROM_MAIN.contains k)
        ++ ["db", "images.db", "redis"] ∧
    (∀ k, k ∈ keysOf (getSecrets (create_images_doc env d)) ↔
      k ∈ ["admin-api.auth", "oauth", "csrf", "db", "images.db", "redis"]) ∧
    "other" ∉ keysOf (getSecrets (create_images_doc env d)) ∧
    (getSecrets (create_images_doc env d)).Pairwise (fun a b => a.key ≠ b.key) ∧
    (∀ s ∈ getSecrets (create_images_doc env d), s.key ∈ REQUIRED_FROM_MAIN →
      s ∈ getSecrets d) := by
  have hout : getSecrets (create_images_doc env d) =
      (getSecrets d).filter (fun s => REQUIRED_FROM_MAIN.contains s.key) ++
      (get_env_secrets env).filter (fun s => REQUIRED_FROM_ENV.contains s.key) := rfl
  have hkeys : keysOf (getSecrets (create_images_doc env d)) =
      (keysOf (getSecrets d)).filter (fun k => REQUIRED_FROM_MAIN.contains k)
        ++ ["db", "images.db", "redis"] := by
    rw [hout]
    show ((getSecrets d).filter (fun s => REQUIRED_FROM_MAIN.contains s.key) ++
      (get_env_secrets env).filter (fun s => REQUIRED_FROM_ENV.contains s.key)).map
        Secret.key = _
    rw [List.map_append]
    congr 1
    exact keysOf_filter _ _
  have hiff : ∀ k, k ∈ keysOf (getSecrets (create_images_doc env d)) ↔
      k ∈ ["admin-api.auth", "oauth", "csrf", "db", "images.db", "redis"] := by
    intro k
    rw [hkeys]
    constructor
    · intro hk
      rcases List.mem_append.mp hk with hk | hk
      · have hm := List.mem_filter.mp hk
        have hkRM : k ∈ REQUIRED_FROM_MAIN := by simpa using hm.2
        simp only [REQUIRED_FROM_MAIN, List.mem_cons, List.not_mem_nil, or_false] at hkRM
        rcases hkRM with rfl | rfl | rfl <;> simp
      · simp only [List.mem_cons, List.not_mem_nil, or_false] at hk
        rcases hk with rfl | rfl | rfl <;> simp
    · intro hk
      simp only [List.mem_cons, List.not_mem_nil, or_false] at hk
      rcases hk with rfl | rfl | rfl | rfl | rfl | rfl
      · exact List.mem_append.mpr (Or.inl (List.mem_filter.mpr ⟨h1, by decide⟩))
      · exact List.mem_append.mpr (Or.inl (List.mem_filter.mpr ⟨h2, by decide⟩))
      · exact List.mem_append.mpr (Or.inl (List.mem_filter.mpr ⟨h3, by decide⟩))
      · exact List.mem_append.mpr (Or.inr (by decide))
      · exact List.mem_append.mpr (Or.inr (by decide))
      · exact List.mem_append.mpr (Or.inr (by decide))
  refine ⟨rfl, hkeys, hiff, ?_, ?_, ?_⟩
  · intro h
    exact absurd ((hiff "other").mp h) (by decide)
  · rw [hout]
    rw [List.pairwise_append]
    refine ⟨List.Pairwise.sublist (List.filter_sublist _) hd,
      List.Pairwise.sublist (List.filter_sublist _) (get_env_secrets_pairwise env), ?_⟩
    intro a ha b hb
    have ha' : a.key ∈ REQUIRED_FROM_MAIN := by
      simpa using (List.mem_filter.mp ha).2
    have hb' : b.key ∈ keysOf ((get_env_secrets env).filter
        (fun s => REQUIRED_FROM_ENV.contains s.key)) := List.mem_map_of_mem Secret.key hb
    rw [create_images_env_part] at hb'
    simp only [REQUIRED_FROM_MAIN, List.mem_cons, List.not_mem_nil, or_false] at ha'
    simp only [keysOf, List.map_cons, List.map_nil, List.mem_cons, List.not_mem_nil,
      or_false] at hb'
    rcases ha' with h | h | h <;> rcases hb' with g | g | g <;> rw [h, g] <;> decide
  · intro s hs hsRM
    rcases List.mem_append.mp (hout ▸ hs) with h | h
    · exact (List.mem_filter.mp h).1
    · exfalso
      have hk : s.key ∈ keysOf ((get_env_secrets env).filter
          (fun s => REQUIRED_FROM_ENV.contains s.key)) := List.mem_map_of_mem Secret.key h
      rw [create_images_env_part] at hk
      simp only [keysOf, List.map_cons, List.map_nil, List.mem_cons, List.not_mem_nil,
        or_false] at hk
      simp only [REQUIRED_FROM_MAIN, List.mem_cons, List.not_mem_nil, or_false] at hsRM
      rcases hsRM with h' | h' | h' <;> rcases hk with g | g | g <;> rw [h'] at g <;>
        simp at g

/-- Witness for the amended C6 on a concrete four-record main document. -/
theorem c6_create_images_amended_witness :
    keysOf (getSecrets (create_images_doc env0
      ⟨some [⟨"admin-api.auth", .nul⟩, ⟨"oauth", .nul⟩, ⟨"csrf", .nul⟩, ⟨"other", .nul⟩],
       []⟩)) =
      (keysOf (getSecrets (⟨some [⟨"admin-api.auth", .nul⟩, ⟨"oauth", .nul⟩,
        ⟨"csrf", .nul⟩, ⟨"other", .nul⟩], []⟩ : Doc))).filter
          (fun k => REQUIRED_FROM_MAIN.contains k) ++ ["db", "images.db", "redis"] ∧
    "other" ∉ keysOf (getSecrets (create_images_doc env0
      ⟨some [⟨"admin-api.auth", .nul⟩, ⟨"oauth", .nul⟩, ⟨"csrf", .nul⟩, ⟨"other", .nul⟩],
       []⟩)) := by
  obtain ⟨_, hkeys, _, hother, _, _⟩ := c6_create_images_amended env0
    ⟨some [⟨"admin-api.auth", .nul⟩, ⟨"oauth", .nul⟩, ⟨"csrf", .nul⟩, ⟨"other", .nul⟩], []⟩
    (by simp [getSecrets, List.pairwise_cons]) (by simp [getSecrets, keysOf])
    (by simp [getSecrets, keysOf]) (by simp [getSecrets, keysOf])
    (by simp [getSecrets, keysOf])
  exact ⟨hkeys, hother⟩

/-! ### Claim theorems: C7, C8, C9, C10 -/

/-- On a list whose keys are exactly the six builder keys in builder order,
the allow-list filter `{db, redis}` keeps exactly the `db` and `redis`
records, in that order. -/
theorem filter_db_redis_of_builder_keys : ∀ (l : List Secret),
    keysOf l = builderKeys →
    keysOf (l.filter fun s => (["db", "redis"] : List String).contains s.key) =
      ["db", "redis"] := by
  intro l h
  rcases l with _ | ⟨a, _ | ⟨b, _ | ⟨c, _ | ⟨d, _ | ⟨e, _ | ⟨f, _ | ⟨g, tl⟩⟩⟩⟩⟩⟩⟩ <;>
    simp only [keysOf, builderKeys, List.map_cons, List.map_nil, List.cons.injEq,
      List.map_eq_nil_iff, List.nil_eq, reduceCtorEq, List.cons_ne_nil, and_false,
      and_true, false_and] at h
  obtain ⟨h1, h2, h3, h4, h5, h6⟩ := h
  simp [keysOf, List.filter_cons, h1, h2, h3, h4, h5, h6]

/-- Claim C7: when the six upserts of `update_secrets` produce exactly the
six builder-keyed records (in builder order), the allow-list filter
`['db', 'redis']` yields a `secrets` sequence of exactly two records with keys
`db` and `redis`, in that order. -/
theorem c7_filter_allowlist (d : Doc)
    (db_url audit_db_url search_db_url redis_url analytic_redis_url : String)
    (h : keysOf (upserted_secrets d db_url audit_db_url search_db_url redis_url
      analytic_redis_url) = builderKeys) :
    keysOf (getSecrets (update_secrets_doc d db_url audit_db_url search_db_url redis_url
      analytic_redis_url (some ["db", "redis"]))) = ["db", "redis"] ∧
    (getSecrets (update_secrets_doc d db_url audit_db_url search_db_url redis_url
      analytic_redis_url (some ["db", "redis"]))).length = 2 := by
  have hsec : getSecrets (update_secrets_doc d db_url audit_db_url search_db_url redis_url
      analytic_redis_url (some ["db", "redis"])) =
      (upserted_secrets d db_url audit_db_url search_db_url redis_url
        analytic_redis_url).filter (fun s => (["db", "redis"] : List String).contains s.key) :=
    rfl
  have hkeys := filter_db_redis_of_builder_keys _ h
  refine ⟨hsec ▸ hkeys, ?_⟩
  have hlen := congrArg List.length (hsec ▸ hkeys)
  simpa [keysOf] using hlen

/-- Witness for C7: the empty document, whose upserted sequence is exactly the
six builder records in builder order. -/
theorem c7_filter_allowlist_witness :
    keysOf (upserted_secrets emptyDoc "u1" "u2" "u3" "u4" "u5") = builderKeys ∧
    keysOf (getSecrets (update_secrets_doc emptyDoc "u1" "u2" "u3" "u4" "u5"
      (some ["db", "redis"]))) = ["db", "redis"] ∧
    (getSecrets (update_secrets_doc emptyDoc "u1" "u2" "u3" "u4" "u5"
      (some ["db", "redis"]))).length = 2 := by
  obtain ⟨ha, hb⟩ := c7_filter_allowlist emptyDoc "u1" "u2" "u3" "u4" "u5" rfl
  exact ⟨rfl, ha, hb⟩

/-- Claim C8: when loading or parsing the main file raises, the error
propagates out of `merge_main` and nothing is written; whenever something is
written, it is the complete merge of the successfully loaded document (the
write statement runs only after the whole in-memory merge). -/
theorem c8_merge_atomic (env : EnvT) :
    (merge_main_except env .malformed = .error () ∧
      merge_main_written env .malformed = none) ∧
    (∀ (file : MainFile) (d0 : Doc), loadMain file = .ok d0 →
      merge_main_written env file = some (merge_doc env d0)) := by
  refine ⟨⟨rfl, rfl⟩, ?_⟩
  intro file d0 h
  simp [merge_main_written, merge_main_except, h]

/-- Witness for C8 at a well-formed empty main file. -/
theorem c8_merge_atomic_witness :
    loadMain (.wellFormed (some emptyDoc)) = .ok emptyDoc ∧
    merge_main_written env0 (.wellFormed (some emptyDoc)) =
      some (merge_doc env0 emptyDoc) :=
  ⟨rfl, (c8_merge_atomic env0).2 (.wellFormed (some emptyDoc)) emptyDoc rfl⟩

/-- Claim C9: an unrecognized mode for `manage_secrets.py`, or fewer than 7
positional arguments for `update_config.py`, is reported via a printed
message and exit status 1, before any file is read or written. -/
theorem c9_usage_errors :
    (∀ (mode : String) (rest : List String),
      mode ≠ "merge_main" → mode ≠ "create_images" →
      manage_secrets_cli (mode :: rest) = .unknownMode mode ∧
      msExitCode (manage_secrets_cli (mode :: rest)) = some 1 ∧
      msPrintsMessage (manage_secrets_cli (mode :: rest)) = true ∧
      msFilesTouched (manage_secrets_cli (mode :: rest)) = []) ∧
    (∀ argv : List String, argv.length < 8 →
      update_config_cli argv = .usageError ∧
      ucExitCode (update_config_cli argv) = some 1 ∧
      ucPrintsMessage (update_config_cli argv) = true ∧
      ucFilesTouched (update_config_cli argv) = []) := by
  constructor
  · intro mode rest h1 h2
    have hcli : manage_secrets_cli (mode :: rest) = .unknownMode mode := by
      simp [manage_secrets_cli, h1, h2]
    exact ⟨hcli, by rw [hcli]; rfl, by rw [hcli]; rfl, by rw [hcli]; rfl⟩
  · intro argv hlen
    have hcli : update_config_cli argv = .usageError := by
      rcases argv with _ | ⟨a1, _ | ⟨a2, _ | ⟨a3, _ | ⟨a4, _ | ⟨a5, _ | ⟨a6, _ |
        ⟨a7, _ | ⟨a8, tl⟩⟩⟩⟩⟩⟩⟩⟩ <;> try rfl
      simp only [List.length_cons] at hlen
      omega
    exact ⟨hcli, by rw [hcli]; rfl, by rw [hcli]; rfl, by rw [hcli]; rfl⟩

/-- Witness for C9: the mode `bogus` and a two-element argument vector. -/
theorem c9_usage_errors_witness :
    manage_secrets_cli ["bogus"] = .unknownMode "bogus" ∧
    msExitCode (manage_secrets_cli ["bogus"]) = some 1 ∧
    msFilesTouched (manage_secrets_cli ["bogus"]) = [] ∧
    update_config_cli ["update_config.py", "in.yaml"] = .usageError ∧
    ucExitCode (update_config_cli ["update_config.py", "in.yaml"]) = some 1 ∧
    ucFilesTouched (update_config_cli ["update_config.py", "in.yaml"]) = [] := by
  obtain ⟨hms, huc⟩ := c9_usage_errors
  obtain ⟨ha, hb, -, hd⟩ := hms "bogus" [] (by decide) (by decide)
  obtain ⟨he, hf, -, hh⟩ := huc ["update_config.py", "in.yaml"] (by decide)
  exact ⟨ha, hb, hd, he, hf, hh⟩

/-- Claim C10: `update_secrets` requires its input file to exist and to parse
to a mapping — a file parsing to `null` (or a missing file) makes it raise
before any output is written — whereas `merge_main` treats a missing or empty
main file as the empty document and succeeds. -/
theorem c10_update_secrets_strict (env : EnvT)
    (db_url audit_db_url search_db_url redis_url analytic_redis_url : String)
    (filter_keys : Option (List String)) :
    update_secrets_run (.wellFormed none) db_url audit_db_url search_db_url redis_url
      analytic_redis_url filter_keys = none ∧
    update_secrets_run .absent db_url audit_db_url search_db_url redis_url
      analytic_redis_url filter_keys = none ∧
    merge_main_written env .absent = some (merge_doc env emptyDoc) ∧
    merge_main_written env (.wellFormed none) = some (merge_doc env emptyDoc) :=
  ⟨rfl, rfl, rfl, rfl⟩
